import Mathlib

/-!
Verification development for the `pytorch-nlu` prediction engine.

The embedding covers the decoding and batched-inference core:

* `src/models/jlu.py` — `RNNBasedJLU.__init__` (component sizes) and
  `RNNBasedJLU.predict` (slot beam-search decoding and intent top-k ranking);
* `src/predict.py` — `prepare_model` (vocabulary-expansion branch), `save`
  (result persistence) and `generate` (top-1 selection before persistence);
* the beam-search decoder (`models/utils.BeamSearchDecoder`) and the inference
  orchestrator (`inference.Predictor`), whose defining modules are not part of
  the sources at hand; those two are modelled from the specification and are
  marked as such in their doc comments.

Numeric scores (PyTorch float tensors) are embedded over an abstract score
type `S` carrying a linear order and the additive/subtractive/divisive
operations the code uses; the transcendental maps `exp` and `log` appearing
in `softmax` / `log_softmax` are passed as explicit function parameters.
Tensors become nested lists: a `[batch, max_len, classes]` tensor is a
`List (List (List S))`, and so on.
-/

namespace PytorchNLU

/-! ### Descending stable sort

`torch.sort(values, dim, descending=True)` sorts each row and returns the
sorted values together with the original indices.  We embed it by pairing
each value with its payload (an index, or a beam hypothesis) and sorting the
pairs in non-increasing order of the value.  The sort is stable (equal values
keep their original relative order); PyTorch itself leaves the order of equal
values unspecified when `stable=True` is not passed, so stability here is a
modelling convention, not a property of the source. -/

/-- `descByFst a b` holds when `a`'s score component is at least `b`'s:
sorting by this relation puts higher scores first. -/
def descByFst {S β : Type} [LinearOrder S] (a b : S × β) : Prop := b.1 ≤ a.1

instance {S β : Type} [LinearOrder S] : DecidableRel (@descByFst S β _) :=
  fun a b => inferInstanceAs (Decidable (b.1 ≤ a.1))

instance {S β : Type} [LinearOrder S] : IsTotal (S × β) descByFst :=
  ⟨fun a b => (le_total b.1 a.1).imp id id⟩

instance {S β : Type} [LinearOrder S] : IsTrans (S × β) descByFst :=
  ⟨fun _ _ _ hab hbc => le_trans hbc hab⟩

/-- Stable descending sort of (score, payload) pairs. -/
def sortDesc {S β : Type} [LinearOrder S] (l : List (S × β)) : List (S × β) :=
  l.insertionSort descByFst

theorem sortDesc_perm {S β : Type} [LinearOrder S] (l : List (S × β)) :
    (sortDesc l).Perm l :=
  List.perm_insertionSort _ l

theorem sortDesc_sorted {S β : Type} [LinearOrder S] (l : List (S × β)) :
    (sortDesc l).Pairwise descByFst :=
  List.sorted_insertionSort _ l

theorem mem_sortDesc {S β : Type} [LinearOrder S] {l : List (S × β)}
    {x : S × β} : x ∈ sortDesc l ↔ x ∈ l :=
  (sortDesc_perm l).mem_iff

/-! ### Normalisation rows

`F.softmax(x, dim)` and `F.log_softmax(x, dim)` applied along the class axis
of one row.  `e` stands for the floating-point `exp`, `lg` for `log`;
`softmax x i = exp x_i / Σ_j exp x_j` and
`log_softmax x i = x_i - log (Σ_j exp x_j)`. -/

/-- One row of `F.softmax(·, dim)`: normalised exponential over the classes. -/
def softmaxRow {S : Type} [AddMonoid S] [Div S] (e : S → S) (row : List S) :
    List S :=
  (row.map e).map (fun w => w / (row.map e).sum)

/-- One row of `F.log_softmax(·, dim)`. -/
def logSoftmaxRow {S : Type} [AddMonoid S] [Sub S] (lg e : S → S)
    (row : List S) : List S :=
  row.map (fun x => x - lg ((row.map e).sum))

theorem length_softmaxRow {S : Type} [AddMonoid S] [Div S] (e : S → S)
    (row : List S) : (softmaxRow e row).length = row.length := by
  simp [softmaxRow]

theorem length_logSoftmaxRow {S : Type} [AddMonoid S] [Sub S] (lg e : S → S)
    (row : List S) : (logSoftmaxRow lg e row).length = row.length := by
  simp [logSoftmaxRow]

/-! ### Beam-search decoder

Modelled from the spec: the decoder class `BeamSearchDecoder` is imported in
`src/models/jlu.py` as `utils.BeamSearchDecoder`, but its defining module
(`models/utils.py`) is not among the sources; the definitions below follow
spec §4.1 (classic prefix beam search, vectorised across the batch; top-`k`
selection with ties broken by stable (hypothesis index, label id) order;
positions at or beyond an example's true length never extend a hypothesis;
a zero-length example is rejected with `InvalidInputError`, a batch-size
mismatch between scores and lengths with `ShapeMismatchError`). -/

/-- A beam hypothesis: cumulative log-probability paired with the label ids
chosen so far. -/
abbrev Hyp (S : Type) : Type := S × List ℕ

/-- All one-label extensions of every live hypothesis at one position:
hypothesis score plus that position's log-probability for each label id. -/
def beamExtend {S : Type} [Add S] (beam : List (Hyp S)) (row : List S) :
    List (Hyp S) :=
  beam.flatMap (fun h => row.enum.map (fun p => (h.1 + p.2, h.2 ++ [p.1])))

/-- One beam-search step: extend every live hypothesis by every label and
keep the `k` best, ties broken by stable (hypothesis index, label id)
order. -/
def beamStep {S : Type} [LinearOrder S] [Add S] (k : ℕ) (beam : List (Hyp S))
    (row : List S) : List (Hyp S) :=
  (sortDesc (beamExtend beam row)).take k

/-- Beam search for a single example: positions `0 .. len - 1` are processed,
starting from the single empty hypothesis with score `0`; positions at or
beyond `len` are ignored. -/
def decodeOne {S : Type} [LinearOrder S] [AddMonoid S] (k : ℕ)
    (rows : List (List S)) (len : ℕ) : List (Hyp S) :=
  (rows.take len).foldl (beamStep k) [(0, [])]

/-- Decoder failure modes (spec §4.1 and §7). -/
inductive DecodeError : Type
  | invalidInput
  | shapeMismatch
deriving DecidableEq, Repr

/-- Batched decode: reject a zero-length example (`InvalidInputError`) and a
batch-size mismatch (`ShapeMismatchError`), otherwise decode each example
independently.  The spec fixes no order between the two checks; the
zero-length check is performed first here. -/
def BeamSearchDecoder.decode {S : Type} [LinearOrder S] [AddMonoid S]
    (scores : List (List (List S))) (lens : List ℕ) (k : ℕ) :
    Except DecodeError (List (List (Hyp S))) :=
  if 0 ∈ lens then .error .invalidInput
  else if scores.length ≠ lens.length then .error .shapeMismatch
  else .ok ((scores.zip lens).map (fun p => decodeOne k p.1 p.2))

/-! ### `RNNBasedJLU.predict` (src/models/jlu.py lines 106-117)

The method first runs `self.forward` — a composition of the swappable
embedding / RNN / pooling / classifier collaborators, external to the core —
obtaining slot logits `lgts : [batch, max_len, num_slot_classes]` and intent
logits `igts : [batch, num_intent_classes]`.  The body downstream of
`forward` is embedded here as a function of those logits. -/

/-- The quadruple returned by `RNNBasedJLU.predict`:
`((slot_candidates, slot_probs), (intent_candidates, intent_probs))`. -/
structure PredictOut (S : Type) : Type where
  slot_candidates : List (List (List ℕ))
  slot_probs : List (List S)
  intent_candidates : List (List ℕ)
  intent_probs : List (List S)
deriving DecidableEq, Repr

/-- One row of `torch.sort(probs, 1, True)`: each probability paired with its
intent id, sorted descending by probability. -/
def intentSort {S : Type} [LinearOrder S] (probs : List S) : List (S × ℕ) :=
  sortDesc (probs.enum.map (fun p => (p.2, p.1)))

/-- Body of `RNNBasedJLU.predict` after `self.forward`:
`slot_logprobs = F.log_softmax(lgts, 2)`; beam-search decode;
`slot_probs = slot_logprobs.exp()`;
`intent_probs, intent_candidates = torch.sort(F.softmax(igts, 1), 1, True)`
sliced to the first `topk` columns. -/
def jluPredict {S : Type} [LinearOrder S] [AddMonoid S] [Sub S] [Div S]
    (lg e : S → S) (lgts : List (List (List S))) (igts : List (List S))
    (lens : List ℕ) (topk : ℕ) : Except DecodeError (PredictOut S) :=
  let slot_logprobs := lgts.map (fun ex => ex.map (logSoftmaxRow lg e))
  match BeamSearchDecoder.decode slot_logprobs lens topk with
  | .error err => .error err
  | .ok beams =>
    .ok
      { slot_candidates := beams.map (fun hs => hs.map (fun h => h.2))
        slot_probs := beams.map (fun hs => hs.map (fun h => e h.1))
        intent_candidates :=
          igts.map (fun row => ((intentSort (softmaxRow e row)).take topk).map
            (fun p => p.2))
        intent_probs :=
          igts.map (fun row => ((intentSort (softmaxRow e row)).take topk).map
            (fun p => p.1)) }

/-! ### `RNNBasedJLU.__init__` (src/models/jlu.py lines 54-85)

The constructor records the dimensions and builds the collaborator modules;
the slot classifier is constructed with `num_labels = num_slots + 1` and the
intent classifier with `num_labels = num_intents + 1`.  Only the sizes of the
constructed components matter here; the modules themselves are external
black boxes (spec §6). -/

/-- The sizes fixed by `AbstractJointLU.__init__`. -/
structure RNNBasedJLU : Type where
  hidden_dim : ℕ
  word_dim : ℕ
  num_words : ℕ
  num_slots : ℕ
  num_intents : ℕ
deriving DecidableEq, Repr

/-- `self.embeds = self.embedding_cls(vocab_size=self.num_words, ...)`. -/
def RNNBasedJLU.embeds_vocab_size (m : RNNBasedJLU) : ℕ := m.num_words

/-- `self.slot_classifier = self.slot_classifier_cls(..., num_labels=self.num_slots + 1)`. -/
def RNNBasedJLU.slot_classifier_num_labels (m : RNNBasedJLU) : ℕ :=
  m.num_slots + 1

/-- `self.intent_classifier = self.intent_classifier_cls(..., num_labels=self.num_intents + 1)`. -/
def RNNBasedJLU.intent_classifier_num_labels (m : RNNBasedJLU) : ℕ :=
  m.num_intents + 1

/-! ### `prepare_model` (src/predict.py lines 72-104)

After constructing the model and loading the checkpoint, the function
branches on `args.expand_vocab`.  The expansion branch consists solely of
`pass` (its body is commented out in the source), and the local variable
`vocab` is assigned only in the `else` branch; hence when expansion is
requested, control reaches `return mdl, vocab` with `vocab` unbound and
Python raises `UnboundLocalError`.  No reserved-marker check is performed and
the model's embedding table is never touched. -/

/-- The run-time failure the interpreter raises in `prepare_model` when
vocabulary expansion is requested. -/
inductive PyRunError : Type
  | unboundLocal
deriving DecidableEq, Repr

/-- Tail of `prepare_model`: `mdl` is the model as loaded from the
checkpoint, `vocab0` is `vocabs[0]`.  The source defines no
`VocabularyExpansionError` and this type reflects that: the only possible
failure is the interpreter's `UnboundLocalError`. -/
def prepare_model {M V : Type} (expand_vocab : Bool) (mdl : M) (vocab0 : V) :
    Except PyRunError (M × V) :=
  if expand_vocab then .error .unboundLocal
  else .ok (mdl, vocab0)

/-! ### `save` (src/predict.py lines 208-218)

`save` normalises whitespace in each label line, renders the probabilities
with `str`, and writes four parallel plain-text files, one newline-terminated
line per example.  A written file is embedded as the list of the strings
passed to `f.write`, i.e. `sample + "\n"` for each sample. -/

/-- Accumulator for Python `str.split()`: splits on runs of whitespace and
drops empty fields (only the space character is relevant to the
space-joined label lines). -/
def splitWordsAux : List Char → List Char → List String
  | [], acc => if acc.isEmpty then [] else [String.mk acc.reverse]
  | c :: cs, acc =>
    if c = ' ' then
      if acc.isEmpty then splitWordsAux cs []
      else String.mk acc.reverse :: splitWordsAux cs []
    else splitWordsAux cs (c :: acc)

/-- `" ".join(label.split())`. -/
def normalizeSpaces (s : String) : String :=
  " ".intercalate (splitWordsAux s.toList [])

/-- The four files written by `save`, in order: label sequences, intents,
label-sequence probabilities, intent probabilities.  `fmt` stands for
Python's `str` on floats. -/
def save {S : Type} (fmt : S → String) (labels intents : List String)
    (p_l p_i : List S) : List (List String) :=
  [labels.map normalizeSpaces, intents, p_l.map fmt, p_i.map fmt].map
    (fun data => data.map (fun sample => sample ++ "\n"))

/-! ### `generate` top-1 selection (src/predict.py lines 259-264)

`predictor.predict` returns, per example, `topk` ranked candidates; the
orchestrator keeps only the first of each (`[l[0] for l in labels]`, etc.)
before calling `save`.  Python raises `IndexError` on an empty candidate
list; the embedding returns `none` in that case. -/

/-- The list comprehensions of `generate` lines 261-262: take the first
candidate of every example, for all four parallel result sequences. -/
def generateTop1 {S : Type} (labels : List (List (List ℕ)))
    (intents : List (List ℕ)) (p_l p_i : List (List S)) :
    Option (List (List ℕ) × List ℕ × List S × List S) := do
  let l ← labels.mapM List.head?
  let i ← intents.mapM List.head?
  let a ← p_l.mapM List.head?
  let b ← p_i.mapM List.head?
  return (l, i, a, b)

/-! ### Inference orchestrator

Modelled from the spec: the class `inference.Predictor` (base class of
`PredictorWithProgress` in src/predict.py) is not among the sources; the
definition below follows spec §4.3: batches are consumed strictly
sequentially in dataset iteration order (the `DataLoader` in `generate` is
constructed without shuffling), each batch's per-example results are
appended in order to the running result collection, and the full ordered
collection is returned.  `f` stands for the per-example result of the
scoring model plus the two ranking components. -/

/-- One inference run over the batched dataset: fold over the batches,
appending each batch's per-example results in order. -/
def predictorRun {γ δ : Type} (f : γ → δ) (batches : List (List γ)) :
    List δ :=
  batches.foldl (fun acc batch => acc ++ batch.map f) []

/-! ### Helper lemmas -/

theorem getElem?_zip_of_some {γ δ : Type} {as : List γ} {bs : List δ} :
    ∀ {i : ℕ} {x : γ} {y : δ}, as[i]? = some x → bs[i]? = some y →
      (as.zip bs)[i]? = some (x, y) := by
  induction as generalizing bs with
  | nil => intro i x y ha; simp at ha
  | cons a as ih =>
    intro i x y ha hb
    cases bs with
    | nil => simp at hb
    | cons b bs =>
      cases i with
      | zero => simp_all
      | succ j => simpa using ih (by simpa using ha) (by simpa using hb)

/-- The cumulative log-probability of a label sequence: the sum, over the
positions the sequence covers, of that position's log-probability for the
chosen label. -/
def seqScore {S : Type} [AddMonoid S] : List (List S) → List ℕ → S
  | row :: rows, c :: cs => row.getD c 0 + seqScore rows cs
  | _, _ => 0

theorem seqScore_nil_right {S : Type} [AddMonoid S] (rows : List (List S)) :
    seqScore rows [] = 0 := by
  cases rows <;> rfl

theorem seqScore_append {S : Type} [AddMonoid S] (row : List S) (c : ℕ) :
    ∀ (rows : List (List S)) (seq : List ℕ), seq.length = rows.length →
      seqScore (rows ++ [row]) (seq ++ [c]) = seqScore rows seq + row.getD c 0
  | [], [], _ => by simp [seqScore, seqScore_nil_right]
  | [], _ :: _, h => by simp at h
  | _ :: _, [], h => by simp at h
  | r :: rs, d :: ds, h => by
    have ih := seqScore_append row c rs ds (by simpa using h)
    simp only [List.cons_append, seqScore]
    rw [add_assoc]
    exact congrArg (fun z => r.getD d 0 + z) ih

theorem seqScore_take {S : Type} [AddMonoid S] :
    ∀ (seq : List ℕ) (rows : List (List S)) (n : ℕ), seq.length ≤ n →
      seqScore (rows.take n) seq = seqScore rows seq
  | [], rows, n, _ => by simp [seqScore_nil_right]
  | c :: cs, rows, 0, h => by simp at h
  | c :: cs, [], n + 1, _ => by simp
  | c :: cs, r :: rs, n + 1, h => by
    have ih := seqScore_take cs rs n (by simpa using h)
    simp only [List.take_succ_cons, seqScore, ih]

theorem beamStep_mem {S : Type} [LinearOrder S] [AddMonoid S] {k : ℕ}
    {beam : List (Hyp S)} {row : List S} {x : Hyp S}
    (h : x ∈ beamStep k beam row) :
    ∃ hb ∈ beam, ∃ p ∈ row.enum, x = (hb.1 + p.2, hb.2 ++ [p.1]) := by
  have h1 : x ∈ beamExtend beam row :=
    mem_sortDesc.mp (List.mem_of_mem_take h)
  rw [beamExtend, List.mem_flatMap] at h1
  obtain ⟨hb, hhb, hx⟩ := h1
  rw [List.mem_map] at hx
  obtain ⟨p, hp, rfl⟩ := hx
  exact ⟨hb, hhb, p, hp, rfl⟩

theorem enum_mem_spec {S : Type} {row : List S} {p : ℕ × S}
    (hp : p ∈ row.enum) : p.1 < row.length ∧ row[p.1]? = some p.2 := by
  have h := @List.mem_enum S p.2 p.1 row (by simpa using hp)
  refine ⟨h.1, ?_⟩
  rw [List.getElem?_eq_getElem h.1]
  exact congrArg some h.2.symm

theorem foldl_beamStep_inv {S : Type} [LinearOrder S] [AddMonoid S] (k : ℕ) :
    ∀ (rows pre : List (List S)) (beam : List (Hyp S)),
      (∀ x ∈ beam, x.2.length = pre.length ∧ x.1 = seqScore pre x.2) →
      ∀ x ∈ rows.foldl (beamStep k) beam,
        x.2.length = pre.length + rows.length ∧
          x.1 = seqScore (pre ++ rows) x.2
  | [], pre, beam, hb => by simpa using hb
  | row :: rs, pre, beam, hb => by
    intro x hx
    have hstep : ∀ y ∈ beamStep k beam row,
        y.2.length = (pre ++ [row]).length ∧ y.1 = seqScore (pre ++ [row]) y.2 := by
      intro y hy
      obtain ⟨hb', hhb, p, hp, rfl⟩ := beamStep_mem hy
      obtain ⟨hlen, hsc⟩ := hb hb' hhb
      obtain ⟨hplt, hpget⟩ := enum_mem_spec hp
      constructor
      · simp [hlen]
      · have hgd : row.getD p.1 0 = p.2 := by
          rw [List.getD_eq_getElem?_getD, hpget]; rfl
        rw [seqScore_append row p.1 pre hb'.2 hlen, ← hsc, hgd]
    have := foldl_beamStep_inv k rs (pre ++ [row]) (beamStep k beam row) hstep x
      (by simpa using hx)
    constructor
    · have h1 := this.1; simp at h1 ⊢; omega
    · have h2 := this.2; simpa [List.append_assoc] using h2

theorem decodeOne_spec {S : Type} [LinearOrder S] [AddMonoid S] {k : ℕ}
    {rows : List (List S)} {len : ℕ} {x : Hyp S} (hx : x ∈ decodeOne k rows len) :
    x.2.length = (rows.take len).length ∧ x.1 = seqScore rows x.2 := by
  have hinit : ∀ y ∈ ([((0 : S), ([] : List ℕ))] : List (Hyp S)),
      y.2.length = ([] : List (List S)).length ∧ y.1 = seqScore [] y.2 := by
    intro y hy
    simp only [List.mem_singleton] at hy
    subst hy
    exact ⟨rfl, rfl⟩
  have h := foldl_beamStep_inv k (rows.take len) [] [((0 : S), ([] : List ℕ))]
    hinit x hx
  refine ⟨by simpa using h.1, ?_⟩
  have hlen : x.2.length ≤ len := by
    have := h.1
    simp at this
    omega
  rw [← seqScore_take x.2 rows len hlen]
  simpa using h.2

theorem foldl_beamStep_bound {S : Type} [LinearOrder S] [AddMonoid S]
    {k C : ℕ} :
    ∀ (rows : List (List S)) (beam : List (Hyp S)),
      (∀ row ∈ rows, row.length ≤ C) →
      (∀ x ∈ beam, ∀ c ∈ x.2, c < C) →
      ∀ x ∈ rows.foldl (beamStep k) beam, ∀ c ∈ x.2, c < C
  | [], beam, _, hb => by simpa using hb
  | row :: rs, beam, hrows, hb => by
    intro x hx
    have hstep : ∀ y ∈ beamStep k beam row, ∀ c ∈ y.2, c < C := by
      intro y hy c hc
      obtain ⟨hb', hhb, p, hp, rfl⟩ := beamStep_mem hy
      simp only [List.mem_append, List.mem_singleton] at hc
      rcases hc with hc | hc
      · exact hb hb' hhb c hc
      · subst hc
        exact lt_of_lt_of_le (enum_mem_spec hp).1
          (hrows row (List.mem_cons_self row rs))
    exact foldl_beamStep_bound rs (beamStep k beam row)
      (fun r hr => hrows r (List.mem_cons_of_mem row hr)) hstep x
      (by simpa using hx)

theorem decodeOne_labels_lt {S : Type} [LinearOrder S] [AddMonoid S]
    {k C len : ℕ} {rows : List (List S)} {x : Hyp S}
    (hC : ∀ row ∈ rows, row.length ≤ C) (hx : x ∈ decodeOne k rows len) :
    ∀ c ∈ x.2, c < C := by
  refine foldl_beamStep_bound (rows.take len) [((0 : S), ([] : List ℕ))]
    (fun r hr => hC r (List.mem_of_mem_take hr)) ?_ x hx
  intro y hy c hc
  simp only [List.mem_singleton] at hy
  subst hy
  simp at hc

theorem mem_intentSort_spec {S : Type} [LinearOrder S] {row : List S}
    {x : S × ℕ} (h : x ∈ intentSort row) :
    x.2 < row.length ∧ row[x.2]? = some x.1 := by
  have h1 : x ∈ row.enum.map (fun p => (p.2, p.1)) := mem_sortDesc.mp h
  rw [List.mem_map] at h1
  obtain ⟨p, hp, rfl⟩ := h1
  exact enum_mem_spec hp

theorem intentSort_length {S : Type} [LinearOrder S] (row : List S) :
    (intentSort row).length = row.length := by
  rw [intentSort, (sortDesc_perm _).length_eq]
  simp [List.enum_length]

theorem decode_ok_spec {S : Type} [LinearOrder S] [AddMonoid S]
    {scores : List (List (List S))} {lens : List ℕ} {k : ℕ}
    {beams : List (List (Hyp S))}
    (h : BeamSearchDecoder.decode scores lens k = .ok beams) :
    0 ∉ lens ∧ scores.length = lens.length ∧
      beams = (scores.zip lens).map (fun p => decodeOne k p.1 p.2) := by
  rw [BeamSearchDecoder.decode] at h
  by_cases h1 : 0 ∈ lens
  · rw [if_pos h1] at h; exact Except.noConfusion h
  · rw [if_neg h1] at h
    by_cases h2 : scores.length ≠ lens.length
    · rw [if_pos h2] at h; exact Except.noConfusion h
    · rw [if_neg h2] at h
      exact ⟨h1, not_not.mp h2, by simpa using h.symm⟩

theorem jluPredict_ok_spec {S : Type} [LinearOrder S] [AddMonoid S] [Sub S]
    [Div S] {lg e : S → S} {lgts : List (List (List S))}
    {igts : List (List S)} {lens : List ℕ} {k : ℕ} {out : PredictOut S}
    (h : jluPredict lg e lgts igts lens k = .ok out) :
    ∃ beams,
      BeamSearchDecoder.decode (lgts.map (fun ex => ex.map (logSoftmaxRow lg e)))
          lens k = .ok beams ∧
        out.slot_candidates = beams.map (fun hs => hs.map (fun h => h.2)) ∧
        out.slot_probs = beams.map (fun hs => hs.map (fun h => e h.1)) ∧
        out.intent_candidates =
          igts.map (fun row => ((intentSort (softmaxRow e row)).take k).map
            (fun p => p.2)) ∧
        out.intent_probs =
          igts.map (fun row => ((intentSort (softmaxRow e row)).take k).map
            (fun p => p.1)) := by
  rw [jluPredict] at h
  cases hdec : BeamSearchDecoder.decode
      (lgts.map (fun ex => ex.map (logSoftmaxRow lg e))) lens k with
  | error err => rw [hdec] at h; cases h
  | ok beams =>
    rw [hdec] at h
    refine ⟨beams, rfl, ?_⟩
    have hout := (Except.ok.injEq _ _ ▸ h).symm
    cases hout
    exact ⟨rfl, rfl, rfl, rfl⟩

theorem predictorRun_eq {γ δ : Type} (f : γ → δ) (batches : List (List γ)) :
    predictorRun f batches = batches.flatten.map f := by
  suffices h : ∀ acc, batches.foldl (fun acc batch => acc ++ batch.map f) acc
      = acc ++ batches.flatten.map f by
    simpa using h []
  induction batches with
  | nil => intro acc; simp
  | cons b bs ih => intro acc; simp [ih, List.append_assoc]

theorem mapM_headD_eq {β : Type} (d : β) :
    ∀ (l : List (List β)), (∀ x ∈ l, x ≠ []) →
      l.mapM List.head? = some (l.map (fun x => x.headD d))
  | [], _ => rfl
  | x :: xs, h => by
    obtain ⟨y, ys, rfl⟩ :=
      List.exists_cons_of_ne_nil (h x (List.mem_cons_self x xs))
    have ih := mapM_headD_eq d xs (fun a ha => h a (List.mem_cons_of_mem _ ha))
    rw [List.mapM_cons, ih]
    rfl

/-! ### Claim theorems -/

/-- Claim C1 (evidence for the code bug): when vocabulary expansion is
requested, `prepare_model` fails with the interpreter's `UnboundLocalError`
regardless of the replacement vocabulary's content — no reserved-marker
check happens, no `VocabularyExpansionError` is defined or raised, and the
embedding table is never swapped; the loaded model is returned, unchanged,
only in the non-expansion branch. -/
theorem prepare_model_expand_vocab_crashes {M V : Type} (mdl : M) (v : V) :
    prepare_model true mdl v = .error .unboundLocal ∧
      prepare_model false mdl v = .ok (mdl, v) :=
  ⟨rfl, rfl⟩

/-- Claim C5: any batch whose lengths contain a zero makes `predict` fail
with `InvalidInputError`; no candidate sets are returned. -/
theorem predict_zero_length_invalid_input {S : Type} [LinearOrder S]
    [AddMonoid S] [Sub S] [Div S] (lg e : S → S)
    (lgts : List (List (List S))) (igts : List (List S)) (lens : List ℕ)
    (k : ℕ) (h0 : 0 ∈ lens) :
    jluPredict lg e lgts igts lens k = .error .invalidInput := by
  simp only [jluPredict, BeamSearchDecoder.decode, if_pos h0]

/-- Witness for Claim C5 at a concrete input. -/
theorem predict_zero_length_invalid_input_witness :
    jluPredict (S := ℕ) (fun _ => 0) id [[[0, 1]]] [[0]] [0] 1 =
      .error .invalidInput :=
  predict_zero_length_invalid_input (fun _ => 0) id [[[0, 1]]] [[0]] [0] 1
    (by decide)

/-- Claim C8: a prediction run consumes the batches in order and returns one
result per dataset example, in original dataset order, for every way of
splitting the dataset into batches. -/
theorem predictor_run_preserves_order {γ δ : Type} (f : γ → δ)
    (batches : List (List γ)) (dataset : List γ)
    (h : batches.flatten = dataset) :
    predictorRun f batches = dataset.map f ∧
      (predictorRun f batches).length = dataset.length := by
  subst h
  refine ⟨predictorRun_eq f batches, ?_⟩
  rw [predictorRun_eq f batches]
  simp [Function.comp_def]

/-- Witness for Claim C8: 5 examples split into batches of size 3 and 2. -/
theorem predictor_run_preserves_order_witness :
    predictorRun (fun n => n + 10) [[0, 1, 2], [3, 4]] =
        [0, 1, 2, 3, 4].map (fun n => n + 10) ∧
      (predictorRun (fun n => n + 10) [[0, 1, 2], [3, 4]]).length =
        [0, 1, 2, 3, 4].length :=
  predictor_run_preserves_order (fun n => n + 10) [[0, 1, 2], [3, 4]]
    [0, 1, 2, 3, 4] (by decide)

/-- Claim C9: before persistence, `generate` keeps exactly the first
(top-ranked) candidate of each example in all four parallel result
sequences, one entry per example; every lower-ranked candidate is
discarded. -/
theorem generate_keeps_top1 {S : Type} (d : S)
    (labels : List (List (List ℕ))) (intents : List (List ℕ))
    (p_l p_i : List (List S))
    (h1 : ∀ x ∈ labels, x ≠ []) (h2 : ∀ x ∈ intents, x ≠ [])
    (h3 : ∀ x ∈ p_l, x ≠ []) (h4 : ∀ x ∈ p_i, x ≠ []) :
    generateTop1 labels intents p_l p_i =
      some (labels.map (fun x => x.headD []),
        intents.map (fun x => x.headD 0),
        p_l.map (fun x => x.headD d), p_i.map (fun x => x.headD d)) ∧
      (labels.map (fun x => x.headD [])).length = labels.length ∧
      (intents.map (fun x => x.headD 0)).length = intents.length ∧
      (p_l.map (fun x => x.headD d)).length = p_l.length ∧
      (p_i.map (fun x => x.headD d)).length = p_i.length := by
  refine ⟨?_, by simp, by simp, by simp, by simp⟩
  rw [generateTop1, mapM_headD_eq [] labels h1, mapM_headD_eq 0 intents h2,
    mapM_headD_eq d p_l h3, mapM_headD_eq d p_i h4]
  rfl

/-- Witness for Claim C9 at a concrete input with two candidates per
example. -/
theorem generate_keeps_top1_witness :
    generateTop1 (S := ℕ) [[[1, 2], [9]]] [[0, 7]] [[5, 4]] [[6, 3]] =
        some ([[[1, 2], [9]]].map (fun x => x.headD []),
          [[0, 7]].map (fun x => x.headD 0),
          [[5, 4]].map (fun x => x.headD 0), [[6, 3]].map (fun x => x.headD 0)) ∧
      ([[[1, 2], [9]]].map (fun x => x.headD ([] : List ℕ))).length = 1 ∧
      ([[0, 7]].map (fun x => x.headD 0)).length = 1 ∧
      ([[5, 4]].map (fun x => x.headD 0)).length = 1 ∧
      ([[6, 3]].map (fun x => x.headD 0)).length = 1 :=
  generate_keeps_top1 0 [[[1, 2], [9]]] [[0, 7]] [[5, 4]] [[6, 3]]
    (by decide) (by decide) (by decide) (by decide)

/-- Claim C2: every slot label sequence returned by `predict` for example
`i` has length exactly `lens[i]`, the example's true length, not the padded
maximum (stated for score tensors covering at least `lens[i]` positions for
that example). -/
theorem predict_slot_sequence_lengths {S : Type} [LinearOrder S]
    [AddMonoid S] [Sub S] [Div S] {lg e : S → S}
    {lgts : List (List (List S))} {igts : List (List S)} {lens : List ℕ}
    {k : ℕ} {out : PredictOut S} {i len : ℕ} {rows : List (List S)}
    {cands : List (List ℕ)} {seq : List ℕ}
    (hok : jluPredict lg e lgts igts lens k = .ok out)
    (hlen : lens[i]? = some len) (hrows : lgts[i]? = some rows)
    (hle : len ≤ rows.length)
    (hcands : out.slot_candidates[i]? = some cands) (hmem : seq ∈ cands) :
    seq.length = len := by
  obtain ⟨beams, hdec, hsc, -, -, -⟩ := jluPredict_ok_spec hok
  obtain ⟨-, -, hbeams⟩ := decode_ok_spec hdec
  have hmap : (lgts.map (fun ex => ex.map (logSoftmaxRow lg e)))[i]? =
      some (rows.map (logSoftmaxRow lg e)) := by
    rw [List.getElem?_map, hrows]; rfl
  have hbi : beams[i]? =
      some (decodeOne k (rows.map (logSoftmaxRow lg e)) len) := by
    rw [hbeams, List.getElem?_map, getElem?_zip_of_some hmap hlen]; rfl
  have hci : out.slot_candidates[i]? =
      some ((decodeOne k (rows.map (logSoftmaxRow lg e)) len).map
        (fun h => h.2)) := by
    rw [hsc, List.getElem?_map, hbi]; rfl
  rw [hci] at hcands
  obtain rfl := Option.some.inj hcands
  rw [List.mem_map] at hmem
  obtain ⟨x, hx, rfl⟩ := hmem
  have h := (decodeOne_spec hx).1
  rw [h, List.length_take, List.length_map]
  omega

/-- Witness for Claim C2 at a concrete input: an example of true length 2,
beam width 2, two label classes. -/
theorem predict_slot_sequence_lengths_witness : ([1, 0] : List ℕ).length = 2 :=
  @predict_slot_sequence_lengths ℕ _ _ _ _ (fun _ => 0) id
    [[[0, 1], [2, 0]]] [[5]] [2] 2
    (PredictOut.mk [[[1, 0], [0, 0]]] [[3, 2]] [[0]] [[1]])
    0 2 [[0, 1], [2, 0]] [[1, 0], [0, 0]] [1, 0]
    rfl rfl rfl (by decide) rfl (by decide)

/-- Claim C6: the decoder accumulates per-position log-softmax scores by
addition, and the slot probability reported for a candidate equals `exp`
applied once, at the final reporting step, to that cumulative sum: for every
example `i` and rank `j`, `slot_probs[i][j] = exp (Σ_t log_softmax(lgts[i])[t][seq[t]])`
where `seq = slot_candidates[i][j]`.  No raw probabilities enter the
search. -/
theorem predict_slot_probs_exp_of_logprob_sum {S : Type} [LinearOrder S]
    [AddMonoid S] [Sub S] [Div S] {lg e : S → S}
    {lgts : List (List (List S))} {igts : List (List S)} {lens : List ℕ}
    {k : ℕ} {out : PredictOut S} {i j len : ℕ} {rows : List (List S)}
    {probs : List S} {cands : List (List ℕ)} {p : S} {seq : List ℕ}
    (hok : jluPredict lg e lgts igts lens k = .ok out)
    (hlen : lens[i]? = some len) (hrows : lgts[i]? = some rows)
    (hprobs : out.slot_probs[i]? = some probs)
    (hcands : out.slot_candidates[i]? = some cands)
    (hp : probs[j]? = some p) (hseq : cands[j]? = some seq) :
    p = e (seqScore (rows.map (logSoftmaxRow lg e)) seq) := by
  obtain ⟨beams, hdec, hsc, hsp, -, -⟩ := jluPredict_ok_spec hok
  obtain ⟨-, -, hbeams⟩ := decode_ok_spec hdec
  have hmap : (lgts.map (fun ex => ex.map (logSoftmaxRow lg e)))[i]? =
      some (rows.map (logSoftmaxRow lg e)) := by
    rw [List.getElem?_map, hrows]; rfl
  have hbi : beams[i]? =
      some (decodeOne k (rows.map (logSoftmaxRow lg e)) len) := by
    rw [hbeams, List.getElem?_map, getElem?_zip_of_some hmap hlen]; rfl
  have hpi : out.slot_probs[i]? =
      some ((decodeOne k (rows.map (logSoftmaxRow lg e)) len).map
        (fun h => e h.1)) := by
    rw [hsp, List.getElem?_map, hbi]; rfl
  have hci : out.slot_candidates[i]? =
      some ((decodeOne k (rows.map (logSoftmaxRow lg e)) len).map
        (fun h => h.2)) := by
    rw [hsc, List.getElem?_map, hbi]; rfl
  rw [hpi] at hprobs
  rw [hci] at hcands
  obtain rfl := Option.some.inj hprobs
  obtain rfl := Option.some.inj hcands
  rw [List.getElem?_map] at hp hseq
  rw [Option.map_eq_some'] at hp hseq
  obtain ⟨x, hx, rfl⟩ := hp
  obtain ⟨x', hx', rfl⟩ := hseq
  obtain rfl : x = x' := Option.some.inj (hx ▸ hx')
  have hmem : x ∈ decodeOne k (rows.map (logSoftmaxRow lg e)) len :=
    List.getElem?_mem hx
  exact congrArg e (decodeOne_spec hmem).2

/-- Witness for Claim C6 at a concrete input: the top candidate `[1, 0]`
has cumulative score `1 + 2 = 3` and reported probability `exp 3` (with
`exp` instantiated as `id`). -/
theorem predict_slot_probs_exp_of_logprob_sum_witness :
    (3 : ℕ) = id (seqScore ([[0, 1], [2, 0]].map
      (logSoftmaxRow (fun _ => 0) (id : ℕ → ℕ))) [1, 0]) :=
  @predict_slot_probs_exp_of_logprob_sum ℕ _ _ _ _ (fun _ => 0) id
    [[[0, 1], [2, 0]]] [[5]] [2] 2
    (PredictOut.mk [[[1, 0], [0, 0]]] [[3, 2]] [[0]] [[1]])
    0 0 2 [[0, 1], [2, 0]] [3, 2] [[1, 0], [0, 0]] 3 [1, 0]
    rfl rfl rfl rfl rfl rfl rfl

/-- Claim C3: `predict` turns the raw intent scores of example `i` into
probabilities by the normalised exponential over the intent-class axis
(`softmaxRow`) and returns the `k` top-probability intent ids paired with
their probabilities, in non-increasing order of probability, clamped to the
number of intent classes when `k` exceeds it; every kept probability is at
least every discarded one. -/
theorem predict_intent_topk_spec {S : Type} [LinearOrder S] [AddMonoid S]
    [Sub S] [Div S] {lg e : S → S} {lgts : List (List (List S))}
    {igts : List (List S)} {lens : List ℕ} {k : ℕ} {out : PredictOut S}
    {i : ℕ} {row : List S} {ps : List S} {ids : List ℕ}
    (_hk : 1 ≤ k)
    (hok : jluPredict lg e lgts igts lens k = .ok out)
    (hrow : igts[i]? = some row)
    (hps : out.intent_probs[i]? = some ps)
    (hids : out.intent_candidates[i]? = some ids) :
    ps.length = min k row.length ∧ ids.length = min k row.length ∧
      ps.Pairwise (· ≥ ·) ∧
      (∀ (j : ℕ) (p : S) (cid : ℕ), ps[j]? = some p → ids[j]? = some cid →
        (softmaxRow e row)[cid]? = some p) ∧
      (∀ p ∈ ps, ∀ y ∈ (intentSort (softmaxRow e row)).drop k, y.1 ≤ p) := by
  obtain ⟨beams, -, -, -, hic, hip⟩ := jluPredict_ok_spec hok
  have hpsi : out.intent_probs[i]? =
      some (((intentSort (softmaxRow e row)).take k).map (fun p => p.1)) := by
    rw [hip, List.getElem?_map, hrow]; rfl
  have hidsi : out.intent_candidates[i]? =
      some (((intentSort (softmaxRow e row)).take k).map (fun p => p.2)) := by
    rw [hic, List.getElem?_map, hrow]; rfl
  rw [hpsi] at hps
  rw [hidsi] at hids
  obtain rfl := Option.some.inj hps
  obtain rfl := Option.some.inj hids
  have hsorted : (intentSort (softmaxRow e row)).Pairwise descByFst := by
    rw [intentSort]; exact sortDesc_sorted _
  refine ⟨?_, ?_, ?_, ?_, ?_⟩
  · rw [List.length_map, List.length_take, intentSort_length, length_softmaxRow]
  · rw [List.length_map, List.length_take, intentSort_length, length_softmaxRow]
  · exact List.pairwise_map.mpr
      ((hsorted.sublist (List.take_sublist k _)).imp (fun h => h))
  · intro j p cid hpj hcj
    rw [List.getElem?_map, Option.map_eq_some'] at hpj hcj
    obtain ⟨x, hx, rfl⟩ := hpj
    obtain ⟨x', hx', rfl⟩ := hcj
    obtain rfl : x = x' := Option.some.inj (hx ▸ hx')
    exact (mem_intentSort_spec
      (List.mem_of_mem_take (List.getElem?_mem hx))).2
  · intro p hp y hy
    rw [List.mem_map] at hp
    obtain ⟨x, hx, rfl⟩ := hp
    have hsplit : ((intentSort (softmaxRow e row)).take k ++
        (intentSort (softmaxRow e row)).drop k).Pairwise descByFst := by
      rw [List.take_append_drop]; exact hsorted
    exact (List.pairwise_append.mp hsplit).2.2 x hx y hy

/-- Witness for Claim C3 at a concrete input: one intent class, `k = 2`
clamps to one candidate. -/
theorem predict_intent_topk_spec_witness :
    ([1] : List ℕ).length = min 2 ([5] : List ℕ).length ∧
      ([0] : List ℕ).length = min 2 ([5] : List ℕ).length ∧
      ([1] : List ℕ).Pairwise (· ≥ ·) ∧
      (∀ (j p cid : ℕ), ([1] : List ℕ)[j]? = some p →
        ([0] : List ℕ)[j]? = some cid → (softmaxRow id [5])[cid]? = some p) ∧
      (∀ p ∈ ([1] : List ℕ), ∀ y ∈ (intentSort (softmaxRow id [5])).drop 2,
        y.1 ≤ p) :=
  @predict_intent_topk_spec ℕ _ _ _ _ (fun _ => 0) id
    [[[0, 1], [2, 0]]] [[5]] [2] 2
    (PredictOut.mk [[[1, 0], [0, 0]]] [[3, 2]] [[0]] [[1]])
    0 [5] [1] [0] (by decide) rfl rfl rfl rfl

/-- Claim C10: the constructor builds the slot classifier over
`num_slots + 1` label classes and the intent classifier over
`num_intents + 1` classes, so decoded slot label ids lie in
`[0, num_slots]` and ranked intent ids lie in `[0, num_intents]` whenever
the score rows have the classifiers' widths (the extra id, equal to the
vocabulary size, is the padding class). -/
theorem rnnjlu_classifier_sizes_and_id_ranges {S : Type} [LinearOrder S]
    [AddMonoid S] [Div S] (m : RNNBasedJLU) (e : S → S) (k len : ℕ)
    (rows : List (List S)) (igts : List S)
    (hrows : ∀ row ∈ rows, row.length = m.slot_classifier_num_labels)
    (higts : igts.length = m.intent_classifier_num_labels) :
    m.slot_classifier_num_labels = m.num_slots + 1 ∧
      m.intent_classifier_num_labels = m.num_intents + 1 ∧
      (∀ x ∈ decodeOne k rows len, ∀ c ∈ x.2, c ≤ m.num_slots) ∧
      (∀ cid ∈ ((intentSort (softmaxRow e igts)).take k).map (fun p => p.2),
        cid ≤ m.num_intents) := by
  refine ⟨rfl, rfl, ?_, ?_⟩
  · intro x hx c hc
    have hlt : c < m.slot_classifier_num_labels :=
      decodeOne_labels_lt (fun row hr => le_of_eq (hrows row hr)) hx c hc
    exact Nat.lt_succ_iff.mp hlt
  · intro cid hcid
    rw [List.mem_map] at hcid
    obtain ⟨x, hx, rfl⟩ := hcid
    have hlt := (mem_intentSort_spec (List.mem_of_mem_take hx)).1
    rw [length_softmaxRow, higts] at hlt
    exact Nat.lt_succ_iff.mp hlt

/-- Witness for Claim C10 at a concrete model with `num_slots = 2`,
`num_intents = 3`. -/
theorem rnnjlu_classifier_sizes_and_id_ranges_witness :
    (RNNBasedJLU.mk 1 1 1 2 3).slot_classifier_num_labels = 2 + 1 ∧
      (RNNBasedJLU.mk 1 1 1 2 3).intent_classifier_num_labels = 3 + 1 ∧
      (∀ x ∈ decodeOne (S := ℕ) 2 [[0, 0, 0]] 1, ∀ c ∈ x.2, c ≤ 2) ∧
      (∀ cid ∈ ((intentSort (softmaxRow id [0, 0, 0, 0])).take 2).map
        (fun p => p.2), cid ≤ 3) :=
  @rnnjlu_classifier_sizes_and_id_ranges ℕ _ _ _
    (RNNBasedJLU.mk 1 1 1 2 3) id 2 1 [[0, 0, 0]] [0, 0, 0, 0]
    (by decide) (by decide)

/-- Claim C7: `save` produces exactly four plain-text files, each with one
newline-terminated line per input example; for every `i`, row `i` of the
four files carries the (whitespace-normalised) label sequence, the intent,
and the two probability strings of input example `i`, in original order. -/
theorem save_four_parallel_files {S : Type} (fmt : S → String)
    (labels intents : List String) (p_l p_i : List S) (n : ℕ)
    (h1 : labels.length = n) (h2 : intents.length = n)
    (h3 : p_l.length = n) (h4 : p_i.length = n) :
    (save fmt labels intents p_l p_i).length = 4 ∧
      (∀ file ∈ save fmt labels intents p_l p_i, file.length = n ∧
        ∀ line ∈ file, ∃ s, line = s ++ "\n") ∧
      (∀ i : ℕ,
        ((save fmt labels intents p_l p_i)[0]?.getD [])[i]? =
          (labels[i]?).map (fun s => normalizeSpaces s ++ "\n") ∧
        ((save fmt labels intents p_l p_i)[1]?.getD [])[i]? =
          (intents[i]?).map (fun s => s ++ "\n") ∧
        ((save fmt labels intents p_l p_i)[2]?.getD [])[i]? =
          (p_l[i]?).map (fun x => fmt x ++ "\n") ∧
        ((save fmt labels intents p_l p_i)[3]?.getD [])[i]? =
          (p_i[i]?).map (fun x => fmt x ++ "\n")) := by
  refine ⟨rfl, ?_, ?_⟩
  · intro file hfile
    rw [save] at hfile
    simp only [List.map_cons, List.map_nil, List.mem_cons,
      List.not_mem_nil, or_false] at hfile
    rcases hfile with h | h | h | h <;> subst h <;>
      refine ⟨by simp [h1, h2, h3, h4], ?_⟩ <;>
      · intro line hline
        rw [List.mem_map] at hline
        obtain ⟨s, -, rfl⟩ := hline
        exact ⟨_, rfl⟩
  · intro i
    refine ⟨?_, ?_, ?_, ?_⟩ <;>
      simp [save, List.getElem?_map, Option.map_map, Function.comp_def]

/-- Witness for Claim C7 at a concrete input with two examples. -/
theorem save_four_parallel_files_witness :
    (save toString ["a  b ", "c"] ["x", "y"] [1, 2] [3, 4]).length = 4 ∧
      (∀ file ∈ save toString ["a  b ", "c"] ["x", "y"] [1, 2] [3, 4],
        file.length = 2 ∧ ∀ line ∈ file, ∃ s, line = s ++ "\n") ∧
      (∀ i : ℕ,
        ((save toString ["a  b ", "c"] ["x", "y"] [1, 2] [3, 4])[0]?.getD
            [])[i]? =
          ((["a  b ", "c"] : List String)[i]?).map
            (fun s => normalizeSpaces s ++ "\n") ∧
        ((save toString ["a  b ", "c"] ["x", "y"] [1, 2] [3, 4])[1]?.getD
            [])[i]? =
          ((["x", "y"] : List String)[i]?).map (fun s => s ++ "\n") ∧
        ((save toString ["a  b ", "c"] ["x", "y"] [1, 2] [3, 4])[2]?.getD
            [])[i]? =
          (([1, 2] : List ℕ)[i]?).map (fun x => toString x ++ "\n") ∧
        ((save toString ["a  b ", "c"] ["x", "y"] [1, 2] [3, 4])[3]?.getD
            [])[i]? =
          (([3, 4] : List ℕ)[i]?).map (fun x => toString x ++ "\n")) :=
  save_four_parallel_files toString ["a  b ", "c"] ["x", "y"] [1, 2] [3, 4] 2
    rfl rfl rfl rfl

end PytorchNLU
